import Mathlib

/-!
Shallow embedding of the 4-D gridded statistics engine of
`helper_functions.py` (mmctools): `model4D_calcQOIs`, `model4D_spectra`,
`model4D_spatial_spectra`, `model4D_cospectra` and `model4D_pdfs`,
together with theorems checking the specification's claims about them.

Modelling conventions.
Python float arithmetic is idealised: real numbers for the
mean/perturbation/moment pipeline (which needs `Real.sqrt` for the TKE
field) and rational numbers for the spectral and histogram pipeline,
whose own arithmetic is plain field arithmetic.  The external routines
the repository merely calls — `scipy.signal.welch`,
`statsmodels.nonparametric.smoothers_lowess.lowess`, and the
`scipy.stats` skew/kurtosis reducers — enter as explicit function
parameters, since they are third-party code, not code of this
repository; the numpy helpers whose semantics the repository's own
logic depends on (`np.histogram` with explicit bin edges, `fftfreq`
two-sided frequency ordering as produced by `welch(...,
return_onesided=False)`) are embedded from their documented behaviour.

Python's `ds[...] = ...` assignments mutate the caller's dataset object
in place; the embedding makes that visible by returning, alongside the
function's return value, the state of the caller-visible dataset after
the call (`CalcOutcome` below carries both).  A raised `KeyError`
(missing variable) is modelled by the `raised` outcome, carrying the
partially augmented dataset the caller is left with.  The comparison
`if it is 0` in the source is modelled as equality with `0`, which is
what CPython's small-integer interning makes it for loop indices.
-/

noncomputable section

/-- The four named axes of an mmc-4D standard dataset:
`datetime`, `nz`, `ny`, `nx`. -/
inductive Dim where
  | datetime
  | nz
  | ny
  | nx

/-- A 4-D real-valued field, indexed in the order
(datetime, nz, ny, nx). -/
abbrev RField : Type := Nat → Nat → Nat → Nat → ℝ

/-- Attribute values stored in a dataset's `attrs` mapping. -/
inductive AttrV where
  | str (s : String)
  | num (x : ℝ)

/-- An xarray-style dataset: axis sizes, a keyed list of data
variables, and an attribute mapping.  Variable lookup returns the most
recently assigned binding for a name, matching Python dict update
semantics observationally. -/
structure Dataset where
  nt : Nat
  nz : Nat
  ny : Nat
  nx : Nat
  vars : List (String × RField)
  attrs : List (String × AttrV)

/-- Association-list lookup used for `ds[name]`. -/
def lookupVar : List (String × RField) → String → Option RField
  | [], _ => none
  | p :: rest, name => if p.1 = name then some p.2 else lookupVar rest name

/-- Variable lookup `ds[name]`; `none` models a Python `KeyError`. -/
def Dataset.getVar (ds : Dataset) (name : String) : Option RField :=
  lookupVar ds.vars name

/-- Variable assignment `ds[name] = f` (the new binding shadows any
older one, as a dict update does for lookups). -/
def Dataset.setVar (ds : Dataset) (name : String) (f : RField) : Dataset :=
  ⟨ds.nt, ds.nz, ds.ny, ds.nx, (name, f) :: ds.vars, ds.attrs⟩

/-- Size of a named axis, `ds.dims[d]`. -/
def Dataset.dimSize (ds : Dataset) : Dim → Nat
  | .datetime => ds.nt
  | .nz => ds.nz
  | .ny => ds.ny
  | .nx => ds.nx

/-- Arithmetic mean of a field over one named axis of size `n`, with
the result broadcast back along the collapsed axis (this is what
`ds.mean(dim=...)` followed by xarray broadcasting produces). -/
def meanAlong (d : Dim) (n : Nat) (f : RField) : RField :=
  match d with
  | .datetime => fun _ k j i => (∑ s ∈ Finset.range n, f s k j i) / (n : ℝ)
  | .nz => fun t _ j i => (∑ s ∈ Finset.range n, f t s j i) / (n : ℝ)
  | .ny => fun t k _ i => (∑ s ∈ Finset.range n, f t k s i) / (n : ℝ)
  | .nx => fun t k j _ => (∑ s ∈ Finset.range n, f t k j s) / (n : ℝ)

/-- `ds.mean(dim=mean_dim)`: every data variable averaged over the
given axis.  (xarray drops dataset attributes on reductions.) -/
def datasetMean (d : Dim) (ds : Dataset) : Dataset :=
  ⟨ds.nt, ds.nz, ds.ny, ds.nx,
   ds.vars.map (fun p => (p.1, meanAlong d (ds.dimSize d) p.2)), []⟩

/-- Variables of `a - b` (xarray dataset arithmetic keeps the
variables present in both operands and subtracts them pointwise). -/
def dsSubVars : List (String × RField) → Dataset → List (String × RField)
  | [], _ => []
  | p :: rest, b =>
    match b.getVar p.1 with
    | some g => (p.1, fun t k j i => p.2 t k j i - g t k j i) :: dsSubVars rest b
    | none => dsSubVars rest b

/-- `ds - ds_means`, the perturbation dataset of line 377. -/
def dsSub (a b : Dataset) : Dataset :=
  ⟨a.nt, a.nz, a.ny, a.nx, dsSubVars a.vars b, []⟩

/-- Pointwise square of a perturbation variable, `ds_perts[name]**2`;
`none` when the variable is missing (Python raises `KeyError`). -/
def pertSq (dsPerts : Dataset) (name : String) : Option RField :=
  (dsPerts.getVar name).map (fun f => fun t k j i => (f t k j i) ^ 2)

/-- Pointwise product of two perturbation variables,
`ds_perts[n1]*ds_perts[n2]`. -/
def pertMul (dsPerts : Dataset) (n1 n2 : String) : Option RField :=
  match dsPerts.getVar n1, dsPerts.getVar n2 with
  | some f, some g => some (fun t k j i => f t k j i * g t k j i)
  | _, _ => none

/-- The right-hand side of line 398,
`ds['TKE'] = 0.5*np.sqrt(ds['UU']+ds['ww'])`, reading the `UU` and
`ww` variables just stored on the dataset. -/
def tkeOf (ds : Dataset) : Option RField :=
  match ds.getVar "UU", ds.getVar "ww" with
  | some a, some b => some (fun t k j i => 0.5 * Real.sqrt (a t k j i + b t k j i))
  | _, _ => none

/-- One Python assignment `ds[name] = rhs`: the right-hand side is
evaluated first, and a missing variable there raises (error carrying
the dataset as mutated so far). -/
def stepAssign (name : String) (v : Option RField) (ds : Dataset) :
    Except Dataset Dataset :=
  match v with
  | some f => .ok (ds.setVar name f)
  | none => .error ds

/-- Sequencing of mutating statements: a raise aborts the rest. -/
def andThen (x : Except Dataset Dataset)
    (f : Dataset → Except Dataset Dataset) : Except Dataset Dataset :=
  match x with
  | .error e => .error e
  | .ok d => f d

/-- Lines 379-386: the `*Mean` variable assignments, with `pMean`
skipped for tslist-type data. -/
def meanAssigns (dsMeans : Dataset) (data_type : String) (ds : Dataset) :
    Except Dataset Dataset :=
  andThen (stepAssign "uMean" (dsMeans.getVar "u") ds) (fun ds =>
  andThen (stepAssign "vMean" (dsMeans.getVar "v") ds) (fun ds =>
  andThen (stepAssign "wMean" (dsMeans.getVar "w") ds) (fun ds =>
  andThen (stepAssign "thetaMean" (dsMeans.getVar "theta") ds) (fun ds =>
  andThen (stepAssign "UMean" (dsMeans.getVar "wspd") ds) (fun ds =>
  andThen (stepAssign "UdirMean" (dsMeans.getVar "wdir") ds) (fun ds =>
  if data_type ≠ "ts" then stepAssign "pMean" (dsMeans.getVar "p") ds
  else .ok ds))))))

/-- Lines 389-398: the variance/covariance assignments and the TKE
field.  `UU` and `Uw` are both assigned `ds_perts['wspd']**2`, and
`TKE` is built from the dataset's own `UU` and `ww` entries. -/
def momentsChain (dsPerts ds : Dataset) : Except Dataset Dataset :=
  andThen (stepAssign "uu" (pertSq dsPerts "u") ds) (fun ds =>
  andThen (stepAssign "vv" (pertSq dsPerts "v") ds) (fun ds =>
  andThen (stepAssign "ww" (pertSq dsPerts "w") ds) (fun ds =>
  andThen (stepAssign "uv" (pertMul dsPerts "u" "v") ds) (fun ds =>
  andThen (stepAssign "uw" (pertMul dsPerts "u" "w") ds) (fun ds =>
  andThen (stepAssign "vw" (pertMul dsPerts "v" "w") ds) (fun ds =>
  andThen (stepAssign "wth" (pertMul dsPerts "w" "theta") ds) (fun ds =>
  andThen (stepAssign "UU" (pertSq dsPerts "wspd") ds) (fun ds =>
  andThen (stepAssign "Uw" (pertSq dsPerts "wspd") ds) (fun ds =>
  stepAssign "TKE" (tkeOf ds) ds)))))))))

/-- Lines 399-402: record the mean option (and, for lowess, the window
size 18000 and the delta) into the dataset attributes. -/
def setAttrsFor (ds : Dataset) (mean_opt : String) (ld : ℝ) : Dataset :=
  if mean_opt = "lowess" then
    ⟨ds.nt, ds.nz, ds.ny, ds.nx, ds.vars,
     ("LOWESS_DELTA", .num ld) :: ("WINDOW_SIZE", .num 18000) ::
     ("MEAN_OPT", .str mean_opt) :: ds.attrs⟩
  else
    ⟨ds.nt, ds.nz, ds.ny, ds.nx, ds.vars,
     ("MEAN_OPT", .str mean_opt) :: ds.attrs⟩

/-- The whole augmentation performed on the caller's dataset once the
means are available: perturbations (from the dataset as it was on
entry), mean assignments, moment assignments, attribute updates. -/
def augmentQOIs (ds dsMeans : Dataset) (data_type mean_opt : String) (ld : ℝ) :
    Except Dataset Dataset :=
  andThen (meanAssigns dsMeans data_type ds) (fun ds1 =>
  andThen (momentsChain (dsSub ds dsMeans) ds1) (fun ds2 =>
  .ok (setAttrsFor ds2 mean_opt ld)))

/-- `var_keys` of lines 330-333: the fixed six names for tslist data,
otherwise all data variables of the dataset. -/
def varKeysFor (ds : Dataset) (data_type : String) : List String :=
  if data_type = "ts" then ["u", "v", "w", "theta", "wspd", "wdir"]
  else ds.vars.map (fun p => p.1)

/-- One cell-wise lowess smooth (lines 354-364): each (nz, ny, nx)
grid cell's 1-D series along `datetime` is smoothed independently by
the external `lowess` routine, abstracted as `lowessFn frac delta`. -/
def smoothField (lowessFn : ℝ → ℝ → (Nat → ℝ) → Nat → ℝ) (frac ld : ℝ)
    (f : RField) : RField :=
  fun t k j i => lowessFn frac ld (fun s => f s k j i) t

/-- The lowess-mean variables, one per `var_keys` entry; `none` models
the `KeyError` raised when a requested variable is absent. -/
def lowessVarsList (lowessFn : ℝ → ℝ → (Nat → ℝ) → Nat → ℝ) (frac ld : ℝ)
    (ds : Dataset) : List String → Option (List (String × RField))
  | [] => some []
  | varn :: rest =>
    match ds.getVar varn with
    | none => none
    | some f =>
      match lowessVarsList lowessFn frac ld ds rest with
      | none => none
      | some tail => some ((varn, smoothField lowessFn frac ld f) :: tail)

/-- Lines 338-373: the lowess-mean dataset, with smoothing fraction
`18000 / len(ds[mean_dim])`. -/
def lowessMeans (lowessFn : ℝ → ℝ → (Nat → ℝ) → Nat → ℝ) (ds : Dataset)
    (mean_dim : Dim) (data_type : String) (ld : ℝ) : Option Dataset :=
  match lowessVarsList lowessFn (18000 / (ds.dimSize mean_dim : ℝ)) ld ds
      (varKeysFor ds data_type) with
  | none => none
  | some vs => some ⟨ds.nt, ds.nz, ds.ny, ds.nx, vs, ds.attrs⟩

/-- Result of a call to `model4D_calcQOIs`, Python-style: `returned`
carries the function's return value (which is `None` for an
unrecognised `mean_opt`) together with the caller-visible state of the
dataset object that was passed in; `raised` is an escaped exception,
also carrying the caller-visible (possibly partially augmented)
dataset. -/
inductive CalcOutcome where
  | returned (ret : Option Dataset) (caller : Dataset)
  | raised (caller : Dataset)

/-- Whether the call escaped with an exception. -/
def CalcOutcome.isRaised : CalcOutcome → Bool
  | .returned _ _ => false
  | .raised _ => true

/-- The caller-visible dataset after the call. -/
def CalcOutcome.callerDs : CalcOutcome → Dataset
  | .returned _ c => c
  | .raised c => c

/-- The returned dataset, on the successful path. -/
def CalcOutcome.retOrSelf (o : CalcOutcome) : Dataset :=
  match o with
  | .returned (some d) _ => d
  | .returned none c => c
  | .raised c => c

/-- Packaging of the augmentation result: in the source the
assignments wrote through the caller's reference, so on success the
returned dataset and the caller's dataset are one and the same
(mutated) object. -/
def runAugment (ds dsMeans : Dataset) (data_type mean_opt : String) (ld : ℝ) :
    CalcOutcome :=
  match augmentQOIs ds dsMeans data_type mean_opt ld with
  | .error dsMid => .raised dsMid
  | .ok final => .returned (some final) final

/-- Embedding of `model4D_calcQOIs(ds, mean_dim, data_type, mean_opt,
lowess_delta)` (lines 303-403).  `lowessFn` stands for the external
`statsmodels` lowess routine, applied per grid cell with the computed
fraction and the given delta.  An unrecognised `mean_opt` prints a
message and returns `None` without touching the dataset (lines
374-376). -/
def model4D_calcQOIs (lowessFn : ℝ → ℝ → (Nat → ℝ) → Nat → ℝ) (ds : Dataset)
    (mean_dim : Dim) (data_type mean_opt : String) (lowess_delta : ℝ) :
    CalcOutcome :=
  if mean_opt = "static" then
    runAugment ds (datasetMean mean_dim ds) data_type mean_opt lowess_delta
  else if mean_opt = "lowess" then
    match lowessMeans lowessFn ds mean_dim data_type lowess_delta with
    | none => .raised ds
    | some dsMeans => runAugment ds dsMeans data_type mean_opt lowess_delta
  else
    .returned none ds

end

/-! ### The spectral and histogram pipeline (rational-valued model) -/

/-- A 4-D rational-valued field, indexed (datetime, nz, ny, nx). -/
abbrev QField : Type := Nat → Nat → Nat → Nat → ℚ

/-- Dataset view used by the spectral/pdf functions: axis sizes, a
total variable map (these functions are called on datasets whose
fields exist; the lookup itself is not what any claim is about), the
grid-spacing attributes `DX`/`DY` and the timestamp spacing
`float(ds.datetime[1]-ds.datetime[0])/1e9` in seconds. -/
structure SpecDataset where
  nt : Nat
  nz : Nat
  ny : Nat
  nx : Nat
  var : String → QField
  DX : ℚ
  DY : ℚ
  dtSec : ℚ

/-- Size of a named axis, `ds.dims[d]`. -/
def SpecDataset.dimSize (ds : SpecDataset) : Dim → Nat
  | .datetime => ds.nt
  | .nz => ds.nz
  | .ny => ds.ny
  | .nx => ds.nx

/-- The external `scipy.signal.welch` call as the repository invokes
it: given the sampling frequency, the block size `nblock` (which fixes
the Hamming window `hamming(nblock, True)`, `noverlap=0`,
`nfft=nblock`, `return_onesided=False`, `detrend='constant'`) and the
data series, it returns the two-sided frequency axis and the real
power-spectral-density array, both of length `nblock`. -/
abbrev WelchFn : Type := ℚ → Nat → List ℚ → List ℚ × List ℚ

/-- Two-sided DFT sample frequencies in `fftfreq` order (what
`welch(..., return_onesided=False)` returns): `k·fs/n` for
`k < ⌈n/2⌉`, then the negative frequencies `(k−n)·fs/n`. -/
def fftfreqQ (n : Nat) (fs : ℚ) : List ℚ :=
  (List.range n).map (fun k =>
    if k < (n + 1) / 2 then (k : ℚ) * fs / (n : ℚ)
    else ((k : ℚ) - (n : ℚ)) * fs / (n : ℚ))

/-- A concrete executable instance of `WelchFn` used for evaluation:
correct two-sided frequency axis, and the data series itself standing
in for the PSD values (their content is irrelevant to the structural
claims). -/
def welchQ : WelchFn := fun fs n s => (fftfreqQ n fs, s)

/-- Dimensions usable as `spectra_dim` in `model4D_spectra`: the
source supports `'datetime'` and dimensions containing `'y'` (line
454-459); any other choice leaves `series` unbound (`NameError`). -/
inductive SpecDim where
  | datetime
  | ny

/-- Sample spacing for `model4D_spectra` (lines 435-440). -/
def specDt (ds : SpecDataset) : SpecDim → ℚ
  | .datetime => ds.dtSec
  | .ny => ds.DY

/-- `nblock = ds.dims[spectra_dim]` for `model4D_spectra`. -/
def specNblock (ds : SpecDataset) : SpecDim → Nat
  | .datetime => ds.nt
  | .ny => ds.ny

/-- The perturbation series handed to `welch` (lines 450-457): the
field minus its mean field at vertical level `level`, sliced at
`nx=iLoc` and at averaging index `it` of the other axis. -/
def specSeries (ds : SpecDataset) (sd : SpecDim) (fld fldMean : String)
    (level iLoc it : Nat) : List ℚ :=
  match sd with
  | .datetime => (List.range ds.nt).map (fun t =>
      ds.var fld t level it iLoc - ds.var fldMean t level it iLoc)
  | .ny => (List.range ds.ny).map (fun j =>
      ds.var fld it level j iLoc - ds.var fldMean it level j iLoc)

/-- Line 462: `Pxxf = np.multiply(np.real(Pxxfc), np.conj(Pxxfc))` —
`welch` returns a real PSD array, on which `real` and `conj` are the
identity, so this squares the PSD elementwise. -/
def specPxxf (welchFn : WelchFn) (ds : SpecDataset) (sd : SpecDim)
    (fld fldMean : String) (level iLoc it : Nat) : List ℚ :=
  List.zipWith (fun a b => a * b)
    ((welchFn (1 / specDt ds sd) (specNblock ds sd)
        (specSeries ds sd fld fldMean level iLoc it)).2)
    ((welchFn (1 / specDt ds sd) (specNblock ds sd)
        (specSeries ds sd fld fldMean level iLoc it)).2)

/-- The inner accumulation loop (lines 453-466): the iteration with
`it = 0` initialises the slot, every later iteration adds to it. -/
def accumPxxf (nblock N : Nat) (pxxf : Nat → List ℚ) : List ℚ :=
  (List.range N).foldl
    (fun acc it =>
      if it = 0 then pxxf it else List.zipWith (· + ·) acc (pxxf it))
    (List.replicate nblock 0)

/-- Embedding of `model4D_spectra` (lines 405-470).  Output: the
frequency axis (from the last `welch` call of the loops, truncated)
and the per-(level-slot, location-slot) power rows.  After the loops
the Python variable `cnt` holds the final `enumerate` counter value
`N - 1`, and the accumulated sum is scaled by `2.0*(1.0/cnt)` before
truncation to the first `floor(nblock/2)` bins.  (For `N = 1` the
source raises `ZeroDivisionError`; the rational model yields the junk
value `1/0 = 0` there, and no theorem below relies on that case.) -/
def model4D_spectra (welchFn : WelchFn) (ds : SpecDataset) (sd : SpecDim)
    (average_dim : Dim) (vert_levels horizontal_locs : List Nat)
    (fld fldMean : String) : List ℚ × (Nat → Nat → List ℚ) :=
  (((welchFn (1 / specDt ds sd) (specNblock ds sd)
      (specSeries ds sd fld fldMean
        ((vert_levels.getLast?).getD 0) ((horizontal_locs.getLast?).getD 0)
        (ds.dimSize average_dim - 1))).1).take (specNblock ds sd / 2),
   fun cl ci =>
     match vert_levels.get? cl, horizontal_locs.get? ci with
     | some level, some iLoc =>
       ((accumPxxf (specNblock ds sd) (ds.dimSize average_dim)
           (specPxxf welchFn ds sd fld fldMean level iLoc)).take
         (specNblock ds sd / 2)).map
         (fun x => 2 * (1 / ((ds.dimSize average_dim : ℚ) - 1)) * x)
     | _, _ => [])

/-- Dimensions usable as `spectra_dim` in `model4D_spatial_spectra`
(lines 499-502 accept names containing `'y'` or `'x'`; `'datetime'`
leaves `dt` unbound). -/
inductive SpatialDim where
  | ny
  | nx

/-- Sample spacing for the spatial spectra functions. -/
def spatialDt (ds : SpecDataset) : SpatialDim → ℚ
  | .ny => ds.DY
  | .nx => ds.DX

/-- `nblock = ds.dims[spectra_dim]` for the spatial spectra. -/
def spatialNblock (ds : SpecDataset) : SpatialDim → Nat
  | .ny => ds.ny
  | .nx => ds.nx

/-- The series of line 514: `isel(datetime=it, nz=level, nx=iLoc)`
always slices along `ny`, whatever `spectra_dim` says. -/
def spatialSeries (ds : SpecDataset) (fld fldMean : String)
    (level iLoc it : Nat) : List ℚ :=
  (List.range ds.ny).map (fun j =>
    ds.var fld it level j iLoc - ds.var fldMean it level j iLoc)

/-- `Pxxf` of line 517 for the spatial variant (PSD squared). -/
def spatialPxxf (welchFn : WelchFn) (ds : SpecDataset) (sd : SpatialDim)
    (fld fldMean : String) (level iLoc it : Nat) : List ℚ :=
  List.zipWith (fun a b => a * b)
    ((welchFn (1 / spatialDt ds sd) (spatialNblock ds sd)
        (spatialSeries ds fld fldMean level iLoc it)).2)
    ((welchFn (1 / spatialDt ds sd) (spatialNblock ds sd)
        (spatialSeries ds fld fldMean level iLoc it)).2)

/-- Pointwise update of a two-index accumulator array slot. -/
def upd2 {α : Type} (g : Nat → Nat → α) (a b : Nat) (v : α) :
    Nat → Nat → α :=
  fun x y => if x = a ∧ y = b then v else g x y

/-- Literal transcription of the accumulation loops of
`model4D_spatial_spectra` (lines 508-524): the outer fold runs over
the time instances carrying `(Puuf_cum, cnt)`, the middle one over
`vert_levels` carrying `cnt_lvl`, the inner one over
`horizontal_locs` carrying `cnt_i`.  Note that, exactly as in the
source, `cnt_i = cnt_i + 1` sits inside the `else` branch, so during
the `it = 0` pass every location writes to column 0. -/
def spatialLoop (pxxf : Nat → Nat → Nat → List ℚ) (nt : Nat)
    (vert_levels horizontal_locs : List Nat)
    (init : Nat → Nat → List ℚ) : (Nat → Nat → List ℚ) × ℚ :=
  (List.range nt).foldl
    (fun st it =>
      let outer := vert_levels.foldl
        (fun s level =>
          let inner := horizontal_locs.foldl
            (fun u iLoc =>
              if it = 0 then
                (upd2 u.1 s.2 u.2 (pxxf level iLoc it), u.2)
              else
                (upd2 u.1 s.2 u.2
                  (List.zipWith (· + ·) (u.1 s.2 u.2) (pxxf level iLoc it)),
                 u.2 + 1))
            ((s.1 : Nat → Nat → List ℚ), (0 : Nat))
          (inner.1, s.2 + 1))
        ((st.1 : Nat → Nat → List ℚ), (0 : Nat))
      (outer.1, st.2 + 1))
    (init, (0 : ℚ))

/-- Embedding of `model4D_spatial_spectra` (lines 472-528).  Here the
running average counter `cnt` is incremented explicitly once per time
instance (so it does end at the instance count), and the truncation
width is `floor(ds.dims['ny']/2)` as hard-coded at lines 525-526. -/
def model4D_spatial_spectra (welchFn : WelchFn) (ds : SpecDataset)
    (sd : SpatialDim) (vert_levels horizontal_locs : List Nat)
    (fld fldMean : String) : List ℚ × (Nat → Nat → List ℚ) :=
  (((welchFn (1 / spatialDt ds sd) (spatialNblock ds sd)
      (spatialSeries ds fld fldMean
        ((vert_levels.getLast?).getD 0) ((horizontal_locs.getLast?).getD 0)
        (ds.nt - 1))).1).take (ds.ny / 2),
   fun cl ci =>
     (((spatialLoop (spatialPxxf welchFn ds sd fld fldMean) ds.nt
          vert_levels horizontal_locs
          (fun _ _ => List.replicate (spatialNblock ds sd) 0)).1 cl ci).take
       (ds.ny / 2)).map
       (fun x => 2 * (1 / (spatialLoop (spatialPxxf welchFn ds sd fld fldMean)
          ds.nt vert_levels horizontal_locs
          (fun _ _ => List.replicate (spatialNblock ds sd) 0)).2) * x))

/-- The perturbation series handed to `welch` by `model4D_cospectra`
on its `'datetime'` path (lines 580-587): field minus mean at
`nz=level`, `nx=iLoc`, `ny=it`.  (That is the only spectral axis that
completes on an mmc-4D standard dataset: `spectra_dim='y'` fails the
`ds.dims['y']` lookup and `'ny'` leaves `series0` unbound.) -/
def coSeries (ds : SpecDataset) (fld fldMean : String)
    (level iLoc it : Nat) : List ℚ :=
  (List.range ds.nt).map (fun t =>
    ds.var fld t level it iLoc - ds.var fldMean t level it iLoc)

/-- Lines 596-597: the combined cospectral term
`real(P0)*conj(P1) + real(P1)*conj(P0)`; on the real PSD arrays
returned by `welch` this is `P0*P1 + P1*P0` elementwise. -/
def coPxxf (welchFn : WelchFn) (ds : SpecDataset)
    (fldv0 fldv0Mean fldv1 fldv1Mean : String)
    (level iLoc it : Nat) : List ℚ :=
  List.zipWith (fun a b => a * b + b * a)
    ((welchFn (1 / ds.dtSec) ds.nt
        (coSeries ds fldv0 fldv0Mean level iLoc it)).2)
    ((welchFn (1 / ds.dtSec) ds.nt
        (coSeries ds fldv1 fldv1Mean level iLoc it)).2)

/-- The accumulated cospectral slot for a (level-slot, location-slot)
pair of `model4D_cospectra` (lines 577-601; `enumerate` keeps the slot
counters in lockstep with the list positions here). -/
def coCum (welchFn : WelchFn) (ds : SpecDataset)
    (fldv0 fldv0Mean fldv1 fldv1Mean : String)
    (vert_levels horizontal_locs : List Nat) (N : Nat)
    (cl ci : Nat) : List ℚ :=
  match vert_levels.get? cl, horizontal_locs.get? ci with
  | some level, some iLoc =>
    accumPxxf ds.nt N
      (fun it => coPxxf welchFn ds fldv0 fldv0Mean fldv1 fldv1Mean level iLoc it)
  | _, _ => []

/-- Embedding of `model4D_cospectra` (lines 530-605) on its
`'datetime'` spectral axis: `nblock = ds.dims['datetime']`, sample
spacing from the timestamps, accumulation as in `model4D_spectra`
(with the same final `cnt = N − 1` scaling), and — as hard-coded at
lines 602-603 — both the power array and the frequency axis truncated
to `floor(ds.dims['ny']/2)` entries, not `floor(nblock/2)`.  The
frequency axis is the one of the last `welch` call, which transformed
the second field's series. -/
def model4D_cospectra (welchFn : WelchFn) (ds : SpecDataset)
    (average_dim : Dim) (vert_levels horizontal_locs : List Nat)
    (fldv0 fldv0Mean fldv1 fldv1Mean : String) :
    List ℚ × (Nat → Nat → List ℚ) :=
  (((welchFn (1 / ds.dtSec) ds.nt
      (coSeries ds fldv1 fldv1Mean
        ((vert_levels.getLast?).getD 0) ((horizontal_locs.getLast?).getD 0)
        (ds.dimSize average_dim - 1))).1).take (ds.ny / 2),
   fun cl ci =>
     ((coCum welchFn ds fldv0 fldv0Mean fldv1 fldv1Mean vert_levels
         horizontal_locs (ds.dimSize average_dim) cl ci).take (ds.ny / 2)).map
       (fun x => 2 * (1 / ((ds.dimSize average_dim : ℚ) - 1)) * x))

/-- Bin membership of `np.histogram` with explicit edges: bin `i` is
`[e_i, e_{i+1})`, except the last bin which also includes its right
edge. -/
def inBin (bins : List ℚ) (i : Nat) (x : ℚ) : Bool :=
  match bins.get? i, bins.get? (i + 1) with
  | some lo, some hi =>
    decide (lo ≤ x) &&
      (decide (x < hi) || (decide (i + 2 = bins.length) && decide (x ≤ hi)))
  | _, _ => false

/-- Whether a sample lies inside the overall histogram range
`[first edge, last edge]`; `np.histogram` ignores samples outside. -/
def inHistRange (bins : List ℚ) (x : ℚ) : Bool :=
  match bins.head?, bins.getLast? with
  | some lo, some hi => decide (lo ≤ x) && decide (x ≤ hi)
  | _, _ => false

/-- `np.histogram(xs, bins)` counts (for `len(bins)` edges,
`len(bins) - 1` bins). -/
def histogram (xs : List ℚ) (bins : List ℚ) : List Nat :=
  (List.range (bins.length - 1)).map (fun i => xs.countP (fun x => inBin bins i x))

/-- The flattened perturbation population of `model4D_pdfs` at one
(level, location) pair (line 703): `isel(nz=level, nx=iLoc)` leaves
dims (datetime, ny), flattened in C order. -/
def pdfDist (ds : SpecDataset) (fld fldMean : String) (level iLoc : Nat) :
    List ℚ :=
  (List.range ds.nt).flatMap (fun t =>
    (List.range ds.ny).map (fun j =>
      ds.var fld t level j iLoc - ds.var fldMean t level j iLoc))

/-- Embedding of `model4D_pdfs` (lines 671-730): per (level, location)
pair, the histogram of the flattened perturbations against the shared
caller-supplied edges, plus skewness and kurtosis by the external
`scipy.stats` reducers (`skewFn`, `kurtFn`); the slot counters
`cnt_lvl`/`cnt_i` track the list positions.  Returns
`(hist_cum, bin_edges, sk_vec, kurt_vec)`. -/
def model4D_pdfs (skewFn kurtFn : List ℚ → ℚ) (ds : SpecDataset)
    (pdf_dim : Dim) (vert_levels horizontal_locs : List Nat)
    (fld fldMean : String) (bins_vector : List ℚ) :
    (Nat → Nat → List Nat) × List ℚ × (Nat → Nat → ℚ) × (Nat → Nat → ℚ) :=
  (fun cl ci =>
     match vert_levels.get? cl, horizontal_locs.get? ci with
     | some level, some iLoc =>
       histogram (pdfDist ds fld fldMean level iLoc) bins_vector
     | _, _ => List.replicate (bins_vector.length - 1) 0,
   bins_vector,
   fun cl ci =>
     match vert_levels.get? cl, horizontal_locs.get? ci with
     | some level, some iLoc => skewFn (pdfDist ds fld fldMean level iLoc)
     | _, _ => 0,
   fun cl ci =>
     match vert_levels.get? cl, horizontal_locs.get? ci with
     | some level, some iLoc => kurtFn (pdfDist ds fld fldMean level iLoc)
     | _, _ => 0)

/-! ### Concrete inputs used to instantiate the theorems -/

noncomputable section

/-- A trivial stand-in for the external lowess routine. -/
def lf0 : ℝ → ℝ → (Nat → ℝ) → Nat → ℝ := fun _ _ s => s

/-- Constant real field. -/
def cF (v : ℝ) : RField := fun _ _ _ _ => v

/-- A small wrfout-style dataset with all the variables
`model4D_calcQOIs` touches. -/
def dsW : Dataset :=
  ⟨1, 1, 1, 1,
   [("u", cF 1), ("v", cF 2), ("w", cF 3), ("theta", cF 300),
    ("wspd", cF 4), ("wdir", cF 90), ("p", cF 1000)],
   []⟩

/-- The outcome of the static-mean call on `dsW`. -/
def calcW : CalcOutcome := model4D_calcQOIs lf0 dsW .datetime "wrfout" "static" 0

/-- The dataset returned by `calcW`. -/
def outW : Dataset := calcW.retOrSelf

/-- Fallback used to name concrete fields out of `Option`s. -/
def fieldOr0 (v : Option RField) : RField := v.getD (cF 0)

/-- The `UU` field of `outW`. -/
def uuW : RField := fieldOr0 (outW.getVar "UU")

/-- The `ww` field of `outW`. -/
def wwW : RField := fieldOr0 (outW.getVar "ww")

/-- The `TKE` field of `outW`. -/
def tkeW : RField := fieldOr0 (outW.getVar "TKE")

/-- The `Uw` field of `outW`. -/
def uwW : RField := fieldOr0 (outW.getVar "Uw")

/-- The `u` field of `dsW`. -/
def uDsW : RField := fieldOr0 (dsW.getVar "u")

/-- The static mean of `u` on `dsW`. -/
def uMeanW : RField := fieldOr0 ((datasetMean .datetime dsW).getVar "u")

/-- The static perturbation of `u` on `dsW`. -/
def uPertW : RField := fieldOr0 ((dsSub dsW (datasetMean .datetime dsW)).getVar "u")

end

/-- Constant rational field. -/
def cQ (v : ℚ) : QField := fun _ _ _ _ => v

/-- Dataset for exercising `model4D_spectra`: two time instances,
two `ny` samples, unit perturbation. -/
def dsC2 : SpecDataset :=
  ⟨2, 1, 2, 1, fun n => if n = "f" then cQ 1 else cQ 0, 1, 1, 1⟩

/-- Dataset for exercising `model4D_spatial_spectra`: the field value
`(i+1)*(t+1)` separates the contributions of each location and time
instance. -/
def dsC3 : SpecDataset :=
  ⟨2, 1, 2, 2,
   fun n => if n = "f" then (fun t _ _ i => ((i : ℚ) + 1) * ((t : ℚ) + 1)) else cQ 0,
   1, 1, 1⟩

/-- Dataset for exercising `model4D_cospectra`: `datetime` size 4
(so `floor(nblock/2) = 2`) but `ny` size 6. -/
def dsC4 : SpecDataset := ⟨4, 1, 6, 1, fun _ => cQ 0, 1, 1, 1⟩

/-- Dataset for exercising `model4D_pdfs`: one time instance, two `ny`
samples, one of which (value 5) lies outside the bin range `[0, 1]`. -/
def dsC8 : SpecDataset :=
  ⟨1, 1, 2, 1,
   fun n => if n = "f" then (fun _ _ j _ => if j = 0 then 1 / 2 else 5) else cQ 0,
   1, 1, 1⟩

/-- Dataset for instantiating the cospectrum symmetry theorem. -/
def dsC9 : SpecDataset :=
  ⟨2, 1, 1, 1,
   fun n => if n = "a" then (fun t _ _ _ => (t : ℚ) + 1)
     else if n = "b" then cQ 2 else cQ 0,
   1, 1, 1⟩

/-- Trivial stand-in for the external skew/kurtosis reducers. -/
def sk0 : List ℚ → ℚ := fun _ => 0

/-! ### Lookup and sequencing lemmas -/

theorem getVar_setVar_self (d : Dataset) (n : String) (f : RField) :
    (d.setVar n f).getVar n = some f := by
  simp [Dataset.setVar, Dataset.getVar, lookupVar]

theorem getVar_setVar_ne (d : Dataset) (n : String) (f : RField) (m : String)
    (h : n ≠ m) : (d.setVar n f).getVar m = d.getVar m := by
  simp [Dataset.setVar, Dataset.getVar, lookupVar, h]

theorem getVar_setAttrsFor (d : Dataset) (mo : String) (ld : ℝ) (n : String) :
    (setAttrsFor d mo ld).getVar n = d.getVar n := by
  unfold setAttrsFor
  split <;> rfl

theorem lookupVar_map (g : RField → RField) (l : List (String × RField))
    (name : String) :
    lookupVar (l.map (fun p => (p.1, g p.2))) name = (lookupVar l name).map g := by
  induction l with
  | nil => rfl
  | cons p rest ih => by_cases h : p.1 = name <;> simp [lookupVar, h, ih]

theorem getVar_datasetMean (d : Dim) (ds : Dataset) (name : String) :
    (datasetMean d ds).getVar name =
      (ds.getVar name).map (fun f => meanAlong d (ds.dimSize d) f) := by
  unfold datasetMean Dataset.getVar
  exact lookupVar_map _ ds.vars name

theorem lookupVar_dsSubVars (b : Dataset) (l : List (String × RField))
    (name : String) :
    lookupVar (dsSubVars l b) name =
      (lookupVar l name).bind (fun f => (b.getVar name).map
        (fun g => fun t k j i => f t k j i - g t k j i)) := by
  induction l with
  | nil => cases b.getVar name <;> rfl
  | cons p rest ih =>
    by_cases h : p.1 = name
    · subst h
      cases hb : b.getVar p.1 with
      | none => simp [dsSubVars, hb, lookupVar, ih]
      | some g => simp [dsSubVars, hb, lookupVar]
    · cases hb : b.getVar p.1 with
      | none => simp [dsSubVars, hb, lookupVar, h, ih]
      | some g => simp [dsSubVars, hb, lookupVar, h, ih]

theorem getVar_dsSub (a b : Dataset) (name : String) :
    (dsSub a b).getVar name =
      (a.getVar name).bind (fun f => (b.getVar name).map
        (fun g => fun t k j i => f t k j i - g t k j i)) := by
  unfold dsSub Dataset.getVar
  exact lookupVar_dsSubVars b a.vars name

theorem andThen_ok {x : Except Dataset Dataset}
    {f : Dataset → Except Dataset Dataset} {out : Dataset}
    (h : andThen x f = .ok out) : ∃ d, x = .ok d ∧ f d = .ok out := by
  cases x with
  | error e => simp [andThen] at h
  | ok d => exact ⟨d, rfl, by simpa [andThen] using h⟩

theorem stepAssign_ok {n : String} {v : Option RField} {d out : Dataset}
    (h : stepAssign n v d = .ok out) : ∃ f, v = some f ∧ out = d.setVar n f := by
  cases v with
  | none => simp [stepAssign] at h
  | some f => exact ⟨f, rfl, by simpa [stepAssign] using h.symm⟩

/-- Structure of a successful run of the moment assignments: the final
dataset holds the same squared-speed-perturbation field under both
`UU` and `Uw`, and its `TKE` field is `0.5 * sqrt` of the sum of its
own `UU` and `ww` entries. -/
theorem momentsChain_ok_struct {dsPerts ds0 out : Dataset}
    (h : momentsChain dsPerts ds0 = .ok out) :
    ∃ sqSp wwF : RField,
      out.getVar "UU" = some sqSp ∧
      out.getVar "Uw" = some sqSp ∧
      out.getVar "ww" = some wwF ∧
      out.getVar "TKE" =
        some (fun t k j i => 0.5 * Real.sqrt (sqSp t k j i + wwF t k j i)) := by
  unfold momentsChain at h
  obtain ⟨d1, s1, h⟩ := andThen_ok h
  obtain ⟨d2, s2, h⟩ := andThen_ok h
  obtain ⟨d3, s3, h⟩ := andThen_ok h
  obtain ⟨d4, s4, h⟩ := andThen_ok h
  obtain ⟨d5, s5, h⟩ := andThen_ok h
  obtain ⟨d6, s6, h⟩ := andThen_ok h
  obtain ⟨d7, s7, h⟩ := andThen_ok h
  obtain ⟨d8, s8, h⟩ := andThen_ok h
  obtain ⟨d9, s9, h⟩ := andThen_ok h
  obtain ⟨fww, hvww, e3⟩ := stepAssign_ok s3
  obtain ⟨fUU, hvUU, e8⟩ := stepAssign_ok s8
  obtain ⟨fUw, hvUw, e9⟩ := stepAssign_ok s9
  obtain ⟨f4, hv4, e4⟩ := stepAssign_ok s4
  obtain ⟨f5, hv5, e5⟩ := stepAssign_ok s5
  obtain ⟨f6, hv6, e6⟩ := stepAssign_ok s6
  obtain ⟨f7, hv7, e7⟩ := stepAssign_ok s7
  obtain ⟨ftke, hvtke, eout⟩ := stepAssign_ok h
  have hUUeq : fUU = fUw := by
    have := hvUU.symm.trans hvUw
    exact Option.some.inj this
  have hd9UU : d9.getVar "UU" = some fUU := by
    rw [e9, getVar_setVar_ne _ _ _ _ (by decide), e8, getVar_setVar_self]
  have hd9ww : d9.getVar "ww" = some fww := by
    rw [e9, getVar_setVar_ne _ _ _ _ (by decide),
        e8, getVar_setVar_ne _ _ _ _ (by decide),
        e7, getVar_setVar_ne _ _ _ _ (by decide),
        e6, getVar_setVar_ne _ _ _ _ (by decide),
        e5, getVar_setVar_ne _ _ _ _ (by decide),
        e4, getVar_setVar_ne _ _ _ _ (by decide),
        e3, getVar_setVar_self]
  have htke : ftke = fun t k j i => 0.5 * Real.sqrt (fUU t k j i + fww t k j i) := by
    have : tkeOf d9 = some (fun t k j i =>
        0.5 * Real.sqrt (fUU t k j i + fww t k j i)) := by
      unfold tkeOf
      rw [hd9UU, hd9ww]
    exact Option.some.inj (hvtke.symm.trans this)
  refine ⟨fUU, fww, ?_, ?_, ?_, ?_⟩
  · rw [eout, getVar_setVar_ne _ _ _ _ (by decide), hd9UU]
  · rw [eout, getVar_setVar_ne _ _ _ _ (by decide), e9, getVar_setVar_self, hUUeq]
  · rw [eout, getVar_setVar_ne _ _ _ _ (by decide), hd9ww]
  · rw [eout, getVar_setVar_self, htke]

/-- A successful packaged augmentation pins down the returned and
caller-visible datasets: they are the same object, produced by
`augmentQOIs`. -/
theorem runAugment_returned {ds dsMeans : Dataset} {dt mo : String} {ld : ℝ}
    {out caller : Dataset}
    (h : runAugment ds dsMeans dt mo ld = .returned (some out) caller) :
    caller = out ∧ augmentQOIs ds dsMeans dt mo ld = .ok out := by
  unfold runAugment at h
  cases ha : augmentQOIs ds dsMeans dt mo ld with
  | error e => rw [ha] at h; simp at h
  | ok final =>
    rw [ha] at h
    obtain ⟨h1, h2⟩ : some final = some out ∧ final = caller := by
      constructor
      · exact (CalcOutcome.returned.inj h).1
      · exact (CalcOutcome.returned.inj h).2
    have hfo : final = out := Option.some.inj h1
    exact ⟨h2.symm.trans hfo, by rw [← hfo]⟩

/-- A call to `model4D_calcQOIs` that returns a dataset did so through
a successful `augmentQOIs` run on some mean dataset, and the returned
dataset is the caller's own (mutated) dataset object. -/
theorem calcQOIs_returned_ok {lf : ℝ → ℝ → (Nat → ℝ) → Nat → ℝ} {ds : Dataset}
    {md : Dim} {dt mo : String} {ld : ℝ} {out caller : Dataset}
    (h : model4D_calcQOIs lf ds md dt mo ld = .returned (some out) caller) :
    caller = out ∧ ∃ dsMeans, augmentQOIs ds dsMeans dt mo ld = .ok out := by
  unfold model4D_calcQOIs at h
  by_cases h1 : mo = "static"
  · rw [if_pos h1] at h
    obtain ⟨hc, ha⟩ := runAugment_returned h
    exact ⟨hc, _, ha⟩
  · rw [if_neg h1] at h
    by_cases h2 : mo = "lowess"
    · rw [if_pos h2] at h
      cases hm : lowessMeans lf ds md dt ld with
      | none => rw [hm] at h; simp at h
      | some dsMeans =>
        rw [hm] at h
        obtain ⟨hc, ha⟩ := runAugment_returned h
        exact ⟨hc, _, ha⟩
    · rw [if_neg h2] at h
      have := (CalcOutcome.returned.inj h).1
      simp at this

/-- The dataset returned by a successful `model4D_calcQOIs` call has
the structure delivered by `momentsChain_ok_struct` (attribute updates
do not disturb variable lookups). -/
theorem calcQOIs_out_struct {lf : ℝ → ℝ → (Nat → ℝ) → Nat → ℝ} {ds : Dataset}
    {md : Dim} {dt mo : String} {ld : ℝ} {out caller : Dataset}
    (h : model4D_calcQOIs lf ds md dt mo ld = .returned (some out) caller) :
    ∃ sqSp wwF : RField,
      out.getVar "UU" = some sqSp ∧
      out.getVar "Uw" = some sqSp ∧
      out.getVar "ww" = some wwF ∧
      out.getVar "TKE" =
        some (fun t k j i => 0.5 * Real.sqrt (sqSp t k j i + wwF t k j i)) := by
  obtain ⟨-, dsMeans, ha⟩ := calcQOIs_returned_ok h
  unfold augmentQOIs at ha
  obtain ⟨ds1, hmean, ha⟩ := andThen_ok ha
  obtain ⟨ds2, hmom, ha⟩ := andThen_ok ha
  have hout : out = setAttrsFor ds2 mo ld := by
    have := Except.ok.inj ha
    exact this.symm
  obtain ⟨sqSp, wwF, k1, k2, k3, k4⟩ := momentsChain_ok_struct hmom
  refine ⟨sqSp, wwF, ?_, ?_, ?_, ?_⟩ <;>
    rw [hout, getVar_setAttrsFor]
  · exact k1
  · exact k2
  · exact k3
  · exact k4

/-! ### Histogram partition lemmas -/

theorem inBin_cons_succ (a : ℚ) (l : List ℚ) (i : Nat) (x : ℚ) :
    inBin (a :: l) (i + 1) x = inBin l i x := by
  unfold inBin
  simp only [List.get?_cons_succ, List.length_cons]
  cases l.get? i <;> cases l.get? (i + 1) <;> simp [Nat.add_right_cancel_iff]

theorem chain_lt_head_le_getLast (y : ℚ) (l : List ℚ)
    (h : List.Chain' (· < ·) (y :: l)) (hi : ℚ)
    (hl : (y :: l).getLast? = some hi) : y ≤ hi := by
  induction l generalizing y with
  | nil =>
    simp at hl
    exact le_of_eq hl
  | cons b t ih =>
    rw [List.getLast?_cons_cons] at hl
    have hyb : y < b := List.chain'_cons.mp h |>.1
    have := ih b (List.chain'_cons.mp h).2 hl
    linarith

/-- Strictly increasing edges partition the closed range: for each
point, the bins of `np.histogram` contain it exactly once when it lies
in `[first, last]` and never otherwise. -/
theorem hist_point_count (x : ℚ) (bins : List ℚ)
    (hs : List.Chain' (· < ·) bins) (hlen : 2 ≤ bins.length) :
    (List.range (bins.length - 1)).countP (fun i => inBin bins i x) =
      if inHistRange bins x then 1 else 0 := by
  induction bins with
  | nil => simp at hlen
  | cons a l ihl =>
    cases l with
    | nil => simp at hlen
    | cons b t =>
      cases t with
      | nil =>
        have hab : a < b := List.chain'_cons.mp hs |>.1
        have h0 : inBin [a, b] 0 x = (decide (a ≤ x) && decide (x ≤ b)) := by
          unfold inBin
          simp only [List.get?]
          by_cases h1 : a ≤ x <;> by_cases h2 : x ≤ b <;>
            by_cases h3 : x < b <;> simp [h1, h2, h3] <;> linarith
        have hr : inHistRange [a, b] x = (decide (a ≤ x) && decide (x ≤ b)) := by
          unfold inHistRange
          simp
        show List.countP (fun i => inBin [a, b] i x) [0] =
          if inHistRange [a, b] x then 1 else 0
        rw [List.countP_cons, List.countP_nil, hr, h0]
        simp
      | cons c t' =>
        have hlen' : 2 ≤ (b :: c :: t').length := by simp
        have hs' : List.Chain' (· < ·) (b :: c :: t') :=
          (List.chain'_cons.mp hs).2
        have hab : a < b := List.chain'_cons.mp hs |>.1
        obtain ⟨hi, hhi⟩ : ∃ hi, (b :: c :: t').getLast? = some hi := by
          cases hgl : (b :: c :: t').getLast? with
          | none => simp [List.getLast?] at hgl
          | some v => exact ⟨v, rfl⟩
        have hble : b ≤ hi := chain_lt_head_le_getLast b (c :: t') hs' hi hhi
        have hlast : (a :: b :: c :: t').getLast? = some hi := by
          rw [List.getLast?_cons_cons]
          exact hhi
        have hshift : (a :: b :: c :: t').length - 1 = ((b :: c :: t').length - 1) + 1 := by
          simp
        rw [hshift, List.range_succ_eq_map, List.countP_cons, List.countP_map]
        have hcomp : ((fun i => inBin (a :: b :: c :: t') i x) ∘ Nat.succ) =
            (fun i => inBin (b :: c :: t') i x) := by
          funext i
          simp only [Function.comp]
          exact inBin_cons_succ a (b :: c :: t') i x
        rw [hcomp, ihl hs' hlen']
        have h0 : inBin (a :: b :: c :: t') 0 x =
            (decide (a ≤ x) && decide (x < b)) := by
          unfold inBin
          simp only [List.get?]
          have hne : ¬ (0 + 2 = (a :: b :: c :: t').length) := by simp
          simp [hne]
        have hr1 : inHistRange (a :: b :: c :: t') x =
            (decide (a ≤ x) && decide (x ≤ hi)) := by
          unfold inHistRange
          rw [hlast]
          simp
        have hr2 : inHistRange (b :: c :: t') x =
            (decide (b ≤ x) && decide (x ≤ hi)) := by
          unfold inHistRange
          rw [hhi]
          simp
        rw [h0, hr1, hr2]
        by_cases h1 : a ≤ x <;> by_cases h2 : x ≤ hi <;>
          by_cases h3 : b ≤ x <;> by_cases h4 : x < b <;>
          simp [h1, h2, h3, h4] <;> linarith

theorem sum_map_add_nat {α : Type} (l : List α) (g h : α → Nat) :
    (l.map (fun i => g i + h i)).sum = (l.map g).sum + (l.map h).sum := by
  induction l with
  | nil => rfl
  | cons a t ih => simp [ih]; omega

theorem sum_map_ite_countP {α : Type} (l : List α) (p : α → Bool) :
    (l.map (fun i => if p i then (1 : Nat) else 0)).sum = l.countP p := by
  induction l with
  | nil => rfl
  | cons a t ih =>
    rw [List.map_cons, List.sum_cons, List.countP_cons, ih]
    omega

/-- Sum of the `np.histogram` counts: exactly the number of samples
inside the closed range of the (strictly increasing) bin edges. -/
theorem histogram_sum (bins : List ℚ) (hs : List.Chain' (· < ·) bins)
    (hlen : 2 ≤ bins.length) (xs : List ℚ) :
    (histogram xs bins).sum = xs.countP (fun x => inHistRange bins x) := by
  induction xs with
  | nil =>
    unfold histogram
    rw [List.countP_nil]
    apply List.sum_eq_zero
    intro y hy
    obtain ⟨i, -, hyi⟩ := List.mem_map.mp hy
    rw [← hyi, List.countP_nil]
  | cons x t ih =>
    unfold histogram at ih ⊢
    have hstep : ((List.range (bins.length - 1)).map
        (fun i => (x :: t).countP (fun y => inBin bins i y))).sum =
        ((List.range (bins.length - 1)).map
          (fun i => t.countP (fun y => inBin bins i y))).sum +
        ((List.range (bins.length - 1)).map
          (fun i => if inBin bins i x then (1 : Nat) else 0)).sum := by
      rw [← sum_map_add_nat]
      have hfun : (fun i => (x :: t).countP (fun y => inBin bins i y)) =
          (fun i => t.countP (fun y => inBin bins i y) +
            if inBin bins i x then (1 : Nat) else 0) := by
        funext i
        rw [List.countP_cons]
      rw [hfun]
    rw [hstep, ih, sum_map_ite_countP, hist_point_count x bins hs hlen,
        List.countP_cons]

theorem pdfDist_length (ds : SpecDataset) (fld fldMean : String)
    (level iLoc : Nat) :
    (pdfDist ds fld fldMean level iLoc).length = ds.nt * ds.ny := by
  unfold pdfDist
  rw [List.length_flatMap]
  have h1 : (List.map
      (List.length ∘ fun t => List.map (fun j =>
        ds.var fld t level j iLoc - ds.var fldMean t level j iLoc)
        (List.range ds.ny)) (List.range ds.nt)) =
      List.map (fun _ => ds.ny) (List.range ds.nt) := by
    apply List.map_congr_left
    intro t ht
    simp [Function.comp]
  rw [h1, List.map_const', List.length_range, List.sum_const_nat]

/-! ### Cospectrum symmetry lemmas -/

theorem coPxxf_comm (w : WelchFn) (ds : SpecDataset) (a am b bm : String)
    (level iLoc it : Nat) :
    coPxxf w ds a am b bm level iLoc it = coPxxf w ds b bm a am level iLoc it := by
  unfold coPxxf
  exact List.zipWith_comm_of_comm _ (fun x y => by ring) _ _

theorem coCum_comm (w : WelchFn) (ds : SpecDataset) (a am b bm : String)
    (lvls locs : List Nat) (N cl ci : Nat) :
    coCum w ds a am b bm lvls locs N cl ci =
      coCum w ds b bm a am lvls locs N cl ci := by
  unfold coCum
  cases lvls.get? cl with
  | none => rfl
  | some level =>
    cases locs.get? ci with
    | none => rfl
    | some iLoc =>
      exact congrArg (accumPxxf ds.nt N)
        (funext (fun it => coPxxf_comm w ds a am b bm level iLoc it))

/-! ### Claim theorems -/

/-- Claim C1: in `model4D_calcQOIs`, for every input dataset that
reaches the moment-computation stage (i.e. every call that returns a
dataset), the stored `TKE` variable equals `0.5 * sqrt(UU + ww)`
elementwise, where `UU` and `ww` are the stored squared
horizontal-speed and vertical-velocity perturbation variables — the
documented, possibly non-standard, formula reproduced exactly. -/
theorem model4D_calcQOIs_TKE_formula (lf : ℝ → ℝ → (Nat → ℝ) → Nat → ℝ)
    (ds : Dataset) (md : Dim) (dt mo : String) (ld : ℝ) (out caller : Dataset)
    (uu ww tke : RField) (t k j i : Nat)
    (hres : model4D_calcQOIs lf ds md dt mo ld = .returned (some out) caller)
    (huu : out.getVar "UU" = some uu) (hww : out.getVar "ww" = some ww)
    (htke : out.getVar "TKE" = some tke) :
    tke t k j i = 0.5 * Real.sqrt (uu t k j i + ww t k j i) := by
  obtain ⟨sqSp, wwF, k1, k2, k3, k4⟩ := calcQOIs_out_struct hres
  have e1 : uu = sqSp := Option.some.inj (huu.symm.trans k1)
  have e2 : ww = wwF := Option.some.inj (hww.symm.trans k3)
  have e3 : tke = fun t k j i => 0.5 * Real.sqrt (sqSp t k j i + wwF t k j i) :=
    Option.some.inj (htke.symm.trans k4)
  rw [e1, e2, e3]

/-- Instantiation of the C1 theorem on the concrete dataset `dsW`. -/
theorem model4D_calcQOIs_TKE_formula_inst :
    model4D_calcQOIs lf0 dsW .datetime "wrfout" "static" 0 =
      .returned (some outW) outW ∧
    outW.getVar "UU" = some uuW ∧
    outW.getVar "ww" = some wwW ∧
    outW.getVar "TKE" = some tkeW ∧
    tkeW 0 0 0 0 = 0.5 * Real.sqrt (uuW 0 0 0 0 + wwW 0 0 0 0) :=
  ⟨rfl, rfl, rfl, rfl,
   model4D_calcQOIs_TKE_formula lf0 dsW .datetime "wrfout" "static" 0 outW outW
     uuW wwW tkeW 0 0 0 0 rfl rfl rfl rfl⟩

/-- Claim C10: in `model4D_calcQOIs`, the derived variable `Uw` is
elementwise equal to the derived variable `UU` (both are assigned
`ds_perts['wspd']**2`), rather than a speed-vertical covariance. -/
theorem model4D_calcQOIs_Uw_eq_UU (lf : ℝ → ℝ → (Nat → ℝ) → Nat → ℝ)
    (ds : Dataset) (md : Dim) (dt mo : String) (ld : ℝ) (out caller : Dataset)
    (uu uw : RField) (t k j i : Nat)
    (hres : model4D_calcQOIs lf ds md dt mo ld = .returned (some out) caller)
    (huu : out.getVar "UU" = some uu) (huw : out.getVar "Uw" = some uw) :
    uw t k j i = uu t k j i := by
  obtain ⟨sqSp, wwF, k1, k2, k3, k4⟩ := calcQOIs_out_struct hres
  have e1 : uu = sqSp := Option.some.inj (huu.symm.trans k1)
  have e2 : uw = sqSp := Option.some.inj (huw.symm.trans k2)
  rw [e1, e2]

/-- Instantiation of the C10 theorem on the concrete dataset `dsW`. -/
theorem model4D_calcQOIs_Uw_eq_UU_inst :
    model4D_calcQOIs lf0 dsW .datetime "wrfout" "static" 0 =
      .returned (some outW) outW ∧
    outW.getVar "UU" = some uuW ∧
    outW.getVar "Uw" = some uwW ∧
    uwW 0 0 0 0 = uuW 0 0 0 0 :=
  ⟨rfl, rfl, rfl,
   model4D_calcQOIs_Uw_eq_UU lf0 dsW .datetime "wrfout" "static" 0 outW outW
     uuW uwW 0 0 0 0 rfl rfl rfl⟩

/-- Claim C5: for every dataset variable, the static mean over the
mean axis plus the perturbation (original minus mean, broadcast back
along the collapsed axis, as `dsSub` with `datasetMean` produces)
reconstructs the original field exactly in the real-number model. -/
theorem static_mean_plus_pert_eq_orig (ds : Dataset) (d : Dim) (name : String)
    (f m p : RField) (t k j i : Nat)
    (hf : ds.getVar name = some f)
    (hm : (datasetMean d ds).getVar name = some m)
    (hp : (dsSub ds (datasetMean d ds)).getVar name = some p) :
    m t k j i + p t k j i = f t k j i := by
  have hm' : (datasetMean d ds).getVar name =
      some (meanAlong d (ds.dimSize d) f) := by
    rw [getVar_datasetMean, hf]
    rfl
  have hp' : (dsSub ds (datasetMean d ds)).getVar name =
      some (fun t k j i => f t k j i - meanAlong d (ds.dimSize d) f t k j i) := by
    rw [getVar_dsSub, hf, hm']
    rfl
  have e1 : m = meanAlong d (ds.dimSize d) f :=
    Option.some.inj (hm.symm.trans hm')
  have e2 : p = fun t k j i => f t k j i - meanAlong d (ds.dimSize d) f t k j i :=
    Option.some.inj (hp.symm.trans hp')
  rw [e1, e2]
  dsimp only
  ring

/-- Instantiation of the C5 theorem on the concrete dataset `dsW`. -/
theorem static_mean_plus_pert_eq_orig_inst :
    dsW.getVar "u" = some uDsW ∧
    (datasetMean .datetime dsW).getVar "u" = some uMeanW ∧
    (dsSub dsW (datasetMean .datetime dsW)).getVar "u" = some uPertW ∧
    uMeanW 0 0 0 0 + uPertW 0 0 0 0 = uDsW 0 0 0 0 :=
  ⟨rfl, rfl, rfl,
   static_mean_plus_pert_eq_orig dsW .datetime "u" uDsW uMeanW uPertW 0 0 0 0
     rfl rfl rfl⟩

/-- Claim C6 counterexample: `model4D_calcQOIs` does mutate the
caller's dataset — after the call on `dsW` the caller-visible dataset
carries a `TKE` variable that the input did not have. -/
theorem model4D_calcQOIs_mutates_input_eval :
    ((model4D_calcQOIs lf0 dsW .datetime "wrfout" "static" 0).callerDs.getVar
      "TKE").isSome = true ∧
    (dsW.getVar "TKE").isSome = false :=
  ⟨rfl, rfl⟩

/-- Claim C6 (amended): on every successful call, `model4D_calcQOIs`
returns the caller's own dataset object, augmented in place with the
derived variables (so the "new entity" is the mutated input itself,
carrying e.g. the `TKE` variable). -/
theorem model4D_calcQOIs_returns_mutated_input
    (lf : ℝ → ℝ → (Nat → ℝ) → Nat → ℝ) (ds : Dataset) (md : Dim)
    (dt mo : String) (ld : ℝ) (out caller : Dataset)
    (hres : model4D_calcQOIs lf ds md dt mo ld = .returned (some out) caller) :
    caller = out ∧ (out.getVar "TKE").isSome = true := by
  obtain ⟨hco, -, -⟩ := calcQOIs_returned_ok hres
  obtain ⟨sqSp, wwF, -, -, -, k4⟩ := calcQOIs_out_struct hres
  refine ⟨hco, ?_⟩
  rw [k4]
  rfl

/-- Instantiation of the amended C6 theorem on `dsW`. -/
theorem model4D_calcQOIs_returns_mutated_input_inst :
    model4D_calcQOIs lf0 dsW .datetime "wrfout" "static" 0 =
      .returned (some outW) outW ∧
    (outW = outW ∧ (outW.getVar "TKE").isSome = true) :=
  ⟨rfl,
   model4D_calcQOIs_returns_mutated_input lf0 dsW .datetime "wrfout" "static" 0
     outW outW rfl⟩

/-- Claim C7 counterexample: with the unsupported `mean_opt` value
`"bogus"`, `model4D_calcQOIs` does not raise anything — the call
completes with a `returned` outcome (the source prints a message and
executes a bare `return`, and no `ConfigurationError` exists in the
code base). -/
theorem model4D_calcQOIs_invalid_mode_no_raise_eval :
    (model4D_calcQOIs lf0 dsW .datetime "wrfout" "bogus" 0).isRaised = false :=
  rfl

/-- Claim C7 (amended): for every `mean_opt` other than `"static"`
and `"lowess"`, `model4D_calcQOIs` returns `None` after printing a
message, raising no exception and leaving the caller's dataset
untouched — so no partial result escapes, but not via an error. -/
theorem model4D_calcQOIs_invalid_mode_returns_none
    (lf : ℝ → ℝ → (Nat → ℝ) → Nat → ℝ) (ds : Dataset) (md : Dim)
    (dt mo : String) (ld : ℝ)
    (h1 : mo ≠ "static") (h2 : mo ≠ "lowess") :
    model4D_calcQOIs lf ds md dt mo ld = .returned none ds := by
  unfold model4D_calcQOIs
  rw [if_neg h1, if_neg h2]

/-- Instantiation of the amended C7 theorem at `mean_opt = "bogus"`. -/
theorem model4D_calcQOIs_invalid_mode_returns_none_inst :
    ("bogus" : String) ≠ "static" ∧ ("bogus" : String) ≠ "lowess" ∧
    model4D_calcQOIs lf0 dsW .datetime "wrfout" "bogus" 0 = .returned none dsW :=
  ⟨by decide, by decide,
   model4D_calcQOIs_invalid_mode_returns_none lf0 dsW .datetime "wrfout" "bogus"
     0 (by decide) (by decide)⟩

unseal Rat.add Rat.mul Rat.sub Rat.inv in
/-- Claim C2 evaluation at a failing input: averaging over an axis
with `N = 2` instances, the accumulated sum `[2]` is scaled by
`2.0*(1.0/cnt)` with `cnt = N - 1 = 1` (the final `enumerate`
counter), producing `[4]`; dividing by the instance count
`ds.dims[average_dim] = 2` as claimed would give `[2]`. -/
theorem model4D_spectra_divides_by_count_minus_one_eval :
    (model4D_spectra welchQ dsC2 .datetime .ny [0] [0] "f" "fm").2 0 0 = [4] ∧
    dsC2.dimSize .ny = 2 ∧ ([4] : List ℚ) ≠ [2] :=
  ⟨by decide, rfl, by decide⟩

unseal Rat.add Rat.mul Rat.sub Rat.inv in
/-- Claim C3 evaluation at a failing input: with one level, two
locations and two time instances, the first time instance writes every
location's periodogram into column 0 (`cnt_i` is only incremented in
the `else` branch), so the returned rows are `[8]` and `[16]` instead
of the per-pair sums `[5]` and `[20]` that initialising each pair's
own slot would give. -/
theorem model4D_spatial_spectra_slot_mixing_eval :
    (model4D_spatial_spectra welchQ dsC3 .ny [0] [0, 1] "f" "fm").2 0 0 = [8] ∧
    (model4D_spatial_spectra welchQ dsC3 .ny [0] [0, 1] "f" "fm").2 0 1 = [16] ∧
    ([8] : List ℚ) ≠ [5] ∧ ([16] : List ℚ) ≠ [20] :=
  ⟨by decide, by decide, by decide, by decide⟩

unseal Rat.add Rat.mul Rat.sub Rat.inv in
/-- Claim C4 evaluation at a failing input: `model4D_cospectra` on a
dataset with `datetime` size 4 (so `nblock = 4`, `floor(nblock/2) = 2`)
but `ny` size 6 truncates with the hard-coded `ds.dims['ny']`,
returning 3 frequency bins that even include the negative frequency
`-1/2` — not the claimed `floor(nblock/2)` non-negative ascending
bins. -/
theorem model4D_cospectra_truncation_eval :
    (model4D_cospectra welchQ dsC4 .ny [0] [0] "f" "fm" "g" "gm").1 =
      [0, 1 / 4, -1 / 2] ∧
    (model4D_cospectra welchQ dsC4 .ny [0] [0] "f" "fm" "g" "gm").1.length ≠
      dsC4.nt / 2 :=
  ⟨by decide, by decide⟩

unseal Rat.add Rat.mul Rat.sub Rat.inv in
/-- Claim C8 counterexample: with bin edges `[0, 1]` and a
perturbation sample equal to 5 (outside the bin range), the histogram
counts sum to 1 while the flattened sample count `nt * ny` is 2. -/
theorem model4D_pdfs_hist_sum_short_eval :
    ((model4D_pdfs sk0 sk0 dsC8 .datetime [0] [0] "f" "fm" [0, 1]).1 0 0).sum = 1 ∧
    dsC8.nt * dsC8.ny = 2 ∧ (1 : Nat) ≠ 2 :=
  ⟨by decide, rfl, by decide⟩

/-- Claim C8 (amended): for every (level, location) pair of
`model4D_pdfs` with strictly increasing bin edges, the histogram
counts sum to the number of flattened perturbation samples (of which
there are `nt * ny`) lying inside the closed range of the bin edges;
samples outside that range are not counted. -/
theorem model4D_pdfs_hist_sum_in_range (skf kf : List ℚ → ℚ)
    (ds : SpecDataset) (pd : Dim) (lvls locs : List Nat) (fld fm : String)
    (bins : List ℚ) (cl ci level iLoc : Nat)
    (hl : lvls[cl]? = some level) (hc : locs[ci]? = some iLoc)
    (hs : List.Chain' (· < ·) bins) (hlen : 2 ≤ bins.length) :
    ((model4D_pdfs skf kf ds pd lvls locs fld fm bins).1 cl ci).sum =
      (pdfDist ds fld fm level iLoc).countP (fun x => inHistRange bins x) ∧
    (pdfDist ds fld fm level iLoc).length = ds.nt * ds.ny := by
  constructor
  · have hslot : (model4D_pdfs skf kf ds pd lvls locs fld fm bins).1 cl ci =
        histogram (pdfDist ds fld fm level iLoc) bins := by
      simp [model4D_pdfs, hl, hc]
    rw [hslot]
    exact histogram_sum bins hs hlen _
  · exact pdfDist_length ds fld fm level iLoc

/-- Instantiation of the amended C8 theorem on `dsC8`. -/
theorem model4D_pdfs_hist_sum_in_range_inst :
    ((model4D_pdfs sk0 sk0 dsC8 .datetime [0] [0] "f" "fm" [0, 1]).1 0 0).sum =
      (pdfDist dsC8 "f" "fm" 0 0).countP (fun x => inHistRange [0, 1] x) ∧
    (pdfDist dsC8 "f" "fm" 0 0).length = dsC8.nt * dsC8.ny :=
  model4D_pdfs_hist_sum_in_range sk0 sk0 dsC8 .datetime [0] [0] "f" "fm" [0, 1]
    0 0 0 0 rfl rfl (List.chain'_pair.mpr (by norm_num)) (by decide)

/-- Claim C9: the cospectrum is commutative in its two fields — for
every dataset, averaging axis, level set and location set,
`model4D_cospectra` returns the same frequency axis and power array
when the two (field, mean) pairs are exchanged.  The only fact needed
about the external `welch` is that its frequency output does not
depend on the data series (it is determined by `nfft` and `fs`). -/
theorem model4D_cospectra_comm (w : WelchFn) (ds : SpecDataset) (ad : Dim)
    (lvls locs : List Nat) (a am b bm : String)
    (hf : ∀ (fs : ℚ) (n : Nat) (s s' : List ℚ), (w fs n s).1 = (w fs n s').1) :
    model4D_cospectra w ds ad lvls locs a am b bm =
      model4D_cospectra w ds ad lvls locs b bm a am := by
  unfold model4D_cospectra
  refine congrArg₂ Prod.mk ?_ ?_
  · exact congrArg (List.take (ds.ny / 2)) (hf _ _ _ _)
  · funext cl ci
    rw [coCum_comm]

/-- Instantiation of the C9 theorem on the concrete dataset `dsC9`
with the concrete `welchQ`. -/
theorem model4D_cospectra_comm_inst :
    model4D_cospectra welchQ dsC9 .ny [0] [0] "a" "am" "b" "bm" =
      model4D_cospectra welchQ dsC9 .ny [0] [0] "b" "bm" "a" "am" :=
  model4D_cospectra_comm welchQ dsC9 .ny [0] [0] "a" "am" "b" "bm"
    (fun _ _ _ _ => rfl)
